import Mathlib

/-! A formal model of Maek (`Maekfile.js`).

Maek is a small content-addressed build engine written as a single
JavaScript file (`Maekfile.js`).  This development gives a shallow
embedding of its core components — the dep-file parser (`loadDeps`),
the per-run hash cache (`hashFile` / `hashFiles`), the target-update
body installed by `updateTargets`, the `RULE` task builder, the job
limiter (`job`), the driver (`maek.update`) and the dynamic-prerequisite
check (`assertNontargets`) — and settles the specification's claims
about them.

Modelling conventions:
* JavaScript strings are modelled by Lean `String`.  The engine only
  manipulates path-like text, where JS UTF-16 code units and Lean
  unicode scalar values coincide character for character.
* A plain JavaScript object used as a dictionary is modelled by an
  association list of its *own* properties together with the fixed list
  `objectProtoProps` of property names inherited from
  `Object.prototype`; the JS `in` operator and property reads see both,
  and the model reflects that.
* File contents are a `List Nat` of bytes; the base64-of-MD5 digest is
  an arbitrary parameter `md5b64 : List Nat → String` (no verified
  property depends on the digest function itself).
* Asynchronous code is modelled either as a function of an abstract
  filesystem state (the task-update body), as a sequential thread of an
  explicit state (hashing, target resolution — JavaScript's event loop
  is single threaded), or as a small-step transition relation (the job
  limiter).
-/

/-- A target is abstract when its first character is a colon
(`target[0] === ':'`); an empty string has no first character (`undefined` in JS)
and is not abstract. -/
def isAbstract (t : String) : Bool := t.data.head? == some ':'

/-- The property names inherited from `Object.prototype` in JavaScript:
`key in obj` is `true` for each of these even when `obj = {}`. -/
def objectProtoProps : List String :=
  ["constructor", "hasOwnProperty", "isPrototypeOf", "propertyIsEnumerable",
   "toLocaleString", "toString", "valueOf",
   "__defineGetter__", "__defineSetter__", "__lookupGetter__",
   "__lookupSetter__", "__proto__"]

/-- The JS test `key in obj` for a plain JS object whose own property names are
`ownKeys`: true when `key` is an own property *or* one inherited from
`Object.prototype`. -/
def jsInKeys (key : String) (ownKeys : List String) : Bool :=
  ownKeys.contains key || objectProtoProps.contains key

/-! ## The dep-file parser (`loadDeps`, Maekfile.js lines 239–282)

The JS code keeps a `tokens` array whose last element is the token
being accumulated; it starts as `['']` and a trailing empty token is
popped at the end.  We carry the finished tokens `acc` and the current
token `cur` separately; `flushTok acc cur` is the JS "push a fresh `''`
only if the last token is non-empty" / final-pop behaviour. -/

def flushTok (acc : List String) (cur : String) : List String :=
  if cur == "" then acc else acc ++ [cur]

/-- Direct translation of the tokenizer loop of `loadDeps`
(lines 247–271).  The index `i` with lookahead `text[i+1]` becomes
pattern matching on one or two leading characters:
* space/tab/newline end the current token;
* `'$','$'` appends a single `'$'` and consumes both characters;
* a backslash followed by a newline is dropped (the newline itself is
  then handled as whitespace by the next iteration, exactly as in the
  source);
* a backslash followed by any other character appends that character
  and consumes both;
* anything else — including a final `'$'` or a final backslash, for
  which the JS lookahead conditions `text[i+1] === '$'` and
  `i+1 < text.length` fail — is appended verbatim. -/
def depTokens : List Char → String → List String → List String
  | [], cur, acc => flushTok acc cur
  | [c], cur, acc =>
    if c == ' ' || c == '\t' || c == '\n' then
      flushTok acc cur
    else
      flushTok acc (cur.push c)
  | c :: d :: cs, cur, acc =>
    if c == ' ' || c == '\t' || c == '\n' then
      depTokens (d :: cs) "" (flushTok acc cur)
    else if c == '$' && d == '$' then
      depTokens cs (cur.push '$') acc
    else if c == '\\' then
      if d == '\n' then depTokens (d :: cs) cur acc
      else depTokens cs (cur.push d) acc
    else
      depTokens (d :: cs) (cur.push c) acc

/-- JavaScript's default `Array.prototype.sort` on an array of path
strings: sorting by the string order.  (Insertion sort in the model;
only sortedness and being a permutation matter, and equal strings are
identical, so the algorithm choice is immaterial.) -/
def sortStrings (l : List String) : List String :=
  List.insertionSort (· ≤ ·) l

/-- Model of `loadDeps` (lines 239–282).  `fileText = none` models the
`readFile` failure path (missing dep-file ⇒ return `[]`).  Otherwise
the text is tokenized, the two leading tokens (`x` and `:`, checked
only by `console.assert`, which logs but does not abort) are dropped,
the remainder is sorted, and every token `t` with `t in inDepends` is
removed — `inDepends` being a plain JS object whose own keys are the
explicit prerequisites, so the `in` test also matches the properties
inherited from `Object.prototype`. -/
def loadDeps (fileText : Option String) (depends : List String) : List String :=
  match fileText with
  | none => []
  | some text =>
    let tokens := (depTokens text.data "" []).drop 2
    (sortStrings tokens).filter (fun t => !(jsInKeys t depends))

/-! ### The specification's description of the parser

For the refinement statement the parser is re-stated from the
specification's words as a two-phase pipeline: a scan that decodes the
escape sequences into a stream of literal characters and separators,
then a split of that stream into tokens. -/

/-- One element of the decoded stream: a token separator or a literal
character. -/
inductive DepItem where
  | sep
  | chr (c : Char)
deriving DecidableEq

/-- Scan phase, following the spec's words: space/tab/newline are
separators; `$$` decodes to `$`; a backslash before a newline is a line
continuation (both characters are discarded and the line break
separates); a backslash before any other character escapes that
character; characters with no lookahead are literal. -/
def specScan : List Char → List DepItem
  | [] => []
  | [c] =>
    if c == ' ' || c == '\t' || c == '\n' then [.sep] else [.chr c]
  | c :: d :: cs =>
    if c == ' ' || c == '\t' || c == '\n' then .sep :: specScan (d :: cs)
    else if c == '$' && d == '$' then .chr '$' :: specScan cs
    else if c == '\\' then
      if d == '\n' then .sep :: specScan cs
      else .chr d :: specScan cs
    else .chr c :: specScan (d :: cs)

/-- Split phase: cut the decoded stream at separators, dropping empty
tokens. -/
def splitGo : List DepItem → String → List String → List String
  | [], cur, acc => flushTok acc cur
  | .sep :: its, cur, acc => splitGo its "" (flushTok acc cur)
  | .chr c :: its, cur, acc => splitGo its (cur.push c) acc

/-- The token list of a dep-file text, per the specification's words. -/
def specTokens (text : String) : List String :=
  splitGo (specScan text.data) "" []

/-- The dep-file parser exactly as the claim states it: tokenize, drop
the `x :` header, sort lexically, and remove the tokens already among
the explicit prerequisites — and nothing else. -/
def loadDepsClaim (fileText : Option String) (depends : List String) : List String :=
  match fileText with
  | none => []
  | some text =>
    sortStrings (((specTokens text).drop 2).filter (fun t => !(depends.contains t)))

/-- The amended parser description: like `loadDepsClaim`, but a token
that spells a property name inherited from JavaScript's
`Object.prototype` (such as `toString`) is removed as well, because the
source tests membership with the `in` operator on a plain object. -/
def loadDepsAmended (fileText : Option String) (depends : List String) : List String :=
  match fileText with
  | none => []
  | some text =>
    sortStrings (((specTokens text).drop 2).filter
      (fun t => !(depends.contains t || objectProtoProps.contains t)))

/-! ## The hasher and the per-run hash cache
(`hashFiles`, Maekfile.js lines 523–558)

`hashCache` is a plain JS object, so a property read `hashCache[file]`
first sees own properties and then the ones inherited from
`Object.prototype`.  A read can therefore produce either a string that
was stored earlier in the run or an inherited object (for example
`Object.prototype.toString`); `JsVal` distinguishes the two. -/

/-- A value read out of a plain JS object used as a string dictionary:
either an own string property, or a member inherited from
`Object.prototype` (an object, not a string). -/
inductive JsVal where
  | str (s : String)
  | protoObj (name : String)
deriving DecidableEq

/-- Own-property lookup on an association list (first match wins). -/
def jsGetOwn : List (String × String) → String → Option String
  | [], _ => none
  | (k, v) :: rest, key => if k == key then some v else jsGetOwn rest key

/-- Full JS property read `obj[key]`: own properties shadow the
prototype; absent that, a name in `objectProtoProps` yields the
inherited object. -/
def jsGetProp (own : List (String × String)) (key : String) : Option JsVal :=
  match jsGetOwn own key with
  | some v => some (.str v)
  | none =>
    if objectProtoProps.contains key then some (.protoObj key) else none

/-- Own-property assignment `obj[key] = v` (overwrite in place or
append). -/
def setOwn : List (String × String) → String → String → List (String × String)
  | [], key, v => [(key, v)]
  | (k, w) :: rest, key, v =>
    if k == key then (key, v) :: rest else (k, w) :: setOwn rest key v

/-- JS assignment semantics: assigning to `"__proto__"` invokes the
inherited accessor and — with a string value — silently changes
nothing; every other key becomes an own property. -/
def jsSet (own : List (String × String)) (key v : String) : List (String × String) :=
  if key == "__proto__" then own else setOwn own key v

/-- JS `delete obj[key]`: removes the own property; inherited properties
cannot be deleted. -/
def delOwn : List (String × String) → String → List (String × String)
  | [], _ => []
  | (k, v) :: rest, key =>
    if k == key then delOwn rest key else (k, v) :: delOwn rest key

/-- The mutable state around `hashCache` (lines 156–157): the cache
object's own properties and the hit counter. -/
structure HashState where
  hashCache : List (String × String)
  hashCacheHits : Nat
deriving DecidableEq

/-- The hash record `hashFile` computes on a cache miss (lines
538–550): `path:x` when the read fails, otherwise
`path:` plus the base64 MD5 digest of the bytes. -/
def hashRecordOf (md5b64 : List Nat → String) (fs : String → Option (List Nat))
    (file : String) : String :=
  match fs file with
  | none => file ++ ":x"
  | some data => file ++ ":" ++ md5b64 data

/-- Model of `hashFile` (lines 530–554): `if (file in hashCache)` bump the hit
counter and return the cached property (which, through the prototype,
need not be a string); otherwise read and digest the file — resolving
to the `:x` sentinel on a read error, never throwing — and store the
record in the cache. -/
def hashFile (md5b64 : List Nat → String) (fs : String → Option (List Nat))
    (st : HashState) (file : String) : JsVal × HashState :=
  match jsGetProp st.hashCache file with
  | some v => (v, { st with hashCacheHits := st.hashCacheHits + 1 })
  | none =>
    let hrec := hashRecordOf md5b64 fs file
    (.str hrec, { st with hashCache := jsSet st.hashCache file hrec })

/-- Hash a list of files in order, threading the cache state.  (The JS
runs the per-file promises concurrently on the single-threaded event
loop and collects results in input order via `Promise.all`; the model
serializes the interleaving, which produces the same records whenever
the filesystem is stable during the call.) -/
def hashFilesGo (md5b64 : List Nat → String) (fs : String → Option (List Nat)) :
    HashState → List String → List JsVal × HashState
  | st, [] => ([], st)
  | st, f :: rest =>
    let r1 := hashFile md5b64 fs st f
    let r2 := hashFilesGo md5b64 fs r1.2 rest
    (r1.1 :: r2.1, r2.2)

/-- Model of `hashFiles` (lines 523–558): drop abstract targets
(`target[0] !== ':'`), hash the remaining files, return results in
input order. -/
def hashFiles (md5b64 : List Nat → String) (fs : String → Option (List Nat))
    (st : HashState) (targets : List String) : List JsVal × HashState :=
  hashFilesGo md5b64 fs st (targets.filter (fun t => !(isAbstract t)))

/-- A hash-cache state is faithful to filesystem `fs` when every stored
own property is the record `hashFile` would compute for that path.  The
empty cache a run starts with is trivially faithful. -/
def CacheFaithful (md5b64 : List Nat → String) (fs : String → Option (List Nat))
    (st : HashState) : Prop :=
  ∀ f v, jsGetOwn st.hashCache f = some v → v = hashRecordOf md5b64 fs f

/-! ## The task-update body installed by `updateTargets`
(Maekfile.js lines 386–410)

A task is modelled by its optional key function — a deterministic
function of the filesystem, encoding that `keyFn` hashes files and the
hash cache is faithful to an unchanged filesystem — and its body, which
transforms the filesystem and reports how many recipe commands it
executed.  `JSON.stringify` is an arbitrary serialization parameter
`ser`. -/

structure TaskModel (Fs Key : Type) where
  keyFn : Option (Fs → Key)
  runBody : Fs → Fs × Nat

/-- What one task-update (the async body stored in `task.pending`)
produced: the filesystem afterwards, the number of recipe commands
executed, whether the task body ran at all, and the resulting
`task.cachedKey`. -/
structure UpdateResult (Fs Key : Type) where
  fsOut : Fs
  cmdsRun : Nat
  ran : Bool
  cachedKey : Option Key

/-- The task-update body (lines 386–410): if `cachedKey` and `keyFn`
both exist, compute the key first; on `JSON.stringify` equality return
success without running the task (a cache hit).  Otherwise run the task
body, then — when a `keyFn` exists — store `cachedKey := keyFn()`
evaluated after the run. -/
def taskUpdate {Fs Key : Type} (t : TaskModel Fs Key) (ser : Key → String)
    (cachedKey : Option Key) (fs : Fs) : UpdateResult Fs Key :=
  match t.keyFn, cachedKey with
  | some kf, some ck =>
    if ser (kf fs) = ser ck then
      ⟨fs, 0, false, some ck⟩
    else
      let r := t.runBody fs
      ⟨r.1, r.2, true, some (kf r.1)⟩
  | some kf, none =>
    let r := t.runBody fs
    ⟨r.1, r.2, true, some (kf r.1)⟩
  | none, ck =>
    let r := t.runBody fs
    ⟨r.1, r.2, true, ck⟩

/-- The task object built by `maek.RULE` (lines 166–197): the body runs
every recipe command in order (`execCmd` is the effect of one command
on the filesystem), and a `keyFn` is installed only when *no* target is
abstract — `if (!targets.some(target => target[0] === ':'))`.  The key
computation itself (recipe plus file hashes, lines 184–190) is
abstracted as `ruleKeyOf`; prerequisite resolution is part of the
abstract filesystem transformation. -/
def mkRuleTask {Fs Key : Type} (execCmd : Fs → List String → Fs) (ruleKeyOf : Fs → Key)
    (targets : List String) (recipe : List (List String)) : TaskModel Fs Key :=
  { keyFn := if targets.any (fun t => isAbstract t) then none else some ruleKeyOf,
    runBody := fun fs => (recipe.foldl execCmd fs, recipe.length) }

/-! ## Pending-handle de-duplication in `updateTargets`
(Maekfile.js lines 377–428)

`updateTargets` maps each requested target through the registry
`maek.tasks`; the registry is modelled abstractly as
`registry : String → Option Nat` sending a target to the identity of
its task object (sibling targets of one task map to the same id).  The
per-task fields `pending` (the in-flight handle) and the number of
times the update body was launched are per-run state. -/

structure ResolveState where
  pendingOf : Nat → Option Nat
  runCount : Nat → Nat
  nextHandle : Nat

def initResolveState : ResolveState :=
  { pendingOf := fun _ => none, runCount := fun _ => 0, nextHandle := 0 }

/-- One registry consultation for one target (lines 379–423): a target
with a task either finds the existing `pending` handle or installs a
fresh one, launching the update body exactly then; a target without a
task takes the abstract-error or file-existence path and produces no
handle. -/
def resolveTarget (registry : String → Option Nat) (st : ResolveState)
    (target : String) : Option Nat × ResolveState :=
  match registry target with
  | none => (none, st)
  | some tid =>
    match st.pendingOf tid with
    | some h => (some h, st)
    | none =>
      (some st.nextHandle,
       { pendingOf := fun t => if t = tid then some st.nextHandle else st.pendingOf t,
         runCount := fun t => if t = tid then st.runCount t + 1 else st.runCount t,
         nextHandle := st.nextHandle + 1 })

/-- A sequence of target requests within one driver invocation (all
`updateTargets` calls interleave on the single-threaded event loop;
each request's registry consultation is atomic). -/
def resolveSeq (registry : String → Option Nat) :
    List String → ResolveState → List (Option Nat) × ResolveState
  | [], st => ([], st)
  | t :: ts, st =>
    let r1 := resolveTarget registry st t
    let r2 := resolveSeq registry ts r1.2
    (r1.1 :: r2.1, r2.2)

/-! ## Hash-cache invalidation order inside the task bodies
(Maekfile.js lines 171–181, 285–302, 342–350)

The three task bodies are modelled at the granularity of their
observable steps, in source order. -/

/-- One step of a task body: resolving prerequisites, deleting a
hash-cache entry, creating an output directory, running an external
command, or parsing the dep-file (with its non-target assertion). -/
inductive BuildEv where
  | updatePrereqs (targets : List String)
  | delHash (file : String)
  | mkdirFor (file : String)
  | runCmd (cmd : List String)
  | loadDepsFor (depsFile : String)
deriving DecidableEq

/-- The `RULE` task body (lines 171–181): resolve prerequisites, run
the recipe commands in order, then delete the hash-cache entry of every
target. -/
def ruleTaskTrace (targets prerequisites : List String)
    (recipe : List (List String)) : List BuildEv :=
  .updatePrereqs prerequisites :: (recipe.map .runCmd ++ targets.map .delHash)

/-- The `CPP` task body (lines 285–302): resolve explicit
prerequisites; delete the object's cache entry, make its directory, and
compile; delete the dep-file's cache entry, make its directory, and run
the dependency probe; then parse the dep-file. -/
def cppTaskTrace (depends : List String) (objFile depsFile : String)
    (objCommand depsCommand : List String) : List BuildEv :=
  [.updatePrereqs depends,
   .delHash objFile, .mkdirFor objFile, .runCmd objCommand,
   .delHash depsFile, .mkdirFor depsFile, .runCmd depsCommand,
   .loadDepsFor depsFile]

/-- The `LINK` task body (lines 342–350): resolve the objects, delete
the executable's cache entry, make its directory, link. -/
def linkTaskTrace (depends : List String) (exeFile : String)
    (linkCommand : List String) : List BuildEv :=
  [.updatePrereqs depends, .delHash exeFile, .mkdirFor exeFile, .runCmd linkCommand]

/-- Relation `Precedes tr a b`: some occurrence of event `a` lies strictly
before some occurrence of event `b` in the trace `tr`. -/
def Precedes (tr : List BuildEv) (a b : BuildEv) : Prop :=
  ∃ (i j : Nat), i < j ∧ tr[i]? = some a ∧ tr[j]? = some b

/-! ## The job limiter (`job`, Maekfile.js lines 433–461; `JOBS`, line 96)

State of the limiter: the jobs submitted so far (in submission order),
the FIFO `job.pending` queue, the jobs currently running (`job.active`
is its length), the jobs started so far (in start order), and the
number of queued `schedule` callbacks on the event-loop tick queue.
Each transition is one atomic synchronous stretch of the single-threaded
event loop. -/

/-- The job cap `JOBS = require('os').cpus().length + 1` (line 96). -/
def JOBS (cpuCount : Nat) : Nat := cpuCount + 1

structure JobState where
  submitted : List Nat
  pendingQ : List Nat
  running : List Nat
  startedOrder : List Nat
  scheds : Nat
deriving DecidableEq

def initJobState : JobState := ⟨[], [], [], [], 0⟩

/-- Transitions of the limiter:
* `submit` — a `job(jobFn)` call: queue a `schedule` callback for the
  next tick and push the job onto `job.pending`; nothing starts now.
* `scheduleStart` — a queued `schedule` callback runs and finds
  `job.active < JOBS` and a non-empty queue: it increments `active` and
  shifts the *front* job off the queue, starting it.
* `scheduleSkip` — a queued `schedule` callback runs but the limit is
  reached or the queue is empty: it does nothing.
* `finish` — a running job's `jobFn` completes: `active` is
  decremented and a fresh `schedule` callback is queued via
  `process.nextTick`. -/
inductive JobStep (limit : Nat) : JobState → JobState → Prop where
  | submit (s : JobState) (id : Nat) :
      JobStep limit s
        { s with submitted := s.submitted ++ [id],
                 pendingQ := s.pendingQ ++ [id],
                 scheds := s.scheds + 1 }
  | scheduleStart (s : JobState) (id : Nat) (q : List Nat) :
      0 < s.scheds → s.pendingQ = id :: q → s.running.length < limit →
      JobStep limit s
        { s with scheds := s.scheds - 1,
                 pendingQ := q,
                 running := s.running ++ [id],
                 startedOrder := s.startedOrder ++ [id] }
  | scheduleSkip (s : JobState) :
      0 < s.scheds → (limit ≤ s.running.length ∨ s.pendingQ = []) →
      JobStep limit s { s with scheds := s.scheds - 1 }
  | finish (s : JobState) (pre post : List Nat) (id : Nat) :
      s.running = pre ++ id :: post →
      JobStep limit s
        { s with running := pre ++ post, scheds := s.scheds + 1 }

/-- The states a driver invocation can reach: the limiter starts with
no jobs and no queued callbacks. -/
inductive JobReachable (limit : Nat) : JobState → Prop where
  | init : JobReachable limit initJobState
  | step {s s2 : JobState} :
      JobReachable limit s → JobStep limit s s2 → JobReachable limit s2

/-! ## The driver (`maek.update`, Maekfile.js lines 563–617) -/

/-- Observable driver actions after the build attempt. -/
inductive DriverEv where
  | printFailed (msg : String)
  | exitProcess (code : Nat)
  | writeCacheFile (contents : List (String × String))
deriving DecidableEq

/-- The cache object the driver persists (lines 604–611): one entry per
task that has a `cachedKey`, in registry order.  Keys are modelled in
serialized form. -/
def storeCache (tasks : List (String × Option String)) : List (String × String) :=
  tasks.filterMap (fun p => p.2.map (fun k => (p.1, k)))

/-- The tail of `maek.update` (lines 591–613): `updateTargets` either
succeeds or throws a `BuildError` with a message.  On a `BuildError`
the driver prints `FAILED: <message>` and calls `process.exit(1)` —
terminating the process at once, so the cache-writing code below the
`try/catch` never runs.  On success it writes the cache file. -/
def updateDriver (tasks : List (String × Option String))
    (buildResult : Except String Unit) : List DriverEv :=
  match buildResult with
  | .error msg => [.printFailed msg, .exitProcess 1]
  | .ok _ => [.writeCacheFile (storeCache tasks)]

/-! ## `assertNontargets` (Maekfile.js lines 509–519) -/

/-- Direct translation of `assertNontargets`: for each prerequisite the
code tests `'target' in maek.tasks` — the *literal* property name
`'target'`, not the loop variable — and collects the prerequisite when
the test holds; a non-empty collection throws a `BuildError` whose
message lists the collected files. -/
def assertNontargets (taskKeys : List String) (prerequisites : List String) :
    Except String Unit :=
  let errorFiles := prerequisites.filter (fun _ => jsInKeys "target" taskKeys)
  if errorFiles.isEmpty then .ok ()
  else .error
    ("the following *generated* files are required but not mentioned as dependancies:\n  "
      ++ String.intercalate "\n  " errorFiles)

/-! Theorems. -/

/-! ## Parser lemmas -/

theorem flushTok_empty (acc : List String) : flushTok acc "" = acc := rfl

theorem specScan_ws (c : Char) (cs : List Char)
    (h : (c == ' ' || c == '\t' || c == '\n') = true) :
    specScan (c :: cs) = .sep :: specScan cs := by
  cases cs <;> simp [specScan, h]

/-- The fused tokenizer of the source equals the scan-then-split
pipeline of the specification. -/
theorem depTokens_eq_splitGo_specScan (cs : List Char) (cur : String)
    (acc : List String) :
    depTokens cs cur acc = splitGo (specScan cs) cur acc := by
  induction cs, cur, acc using depTokens.induct with
  | case1 cur acc => simp [depTokens, specScan, splitGo]
  | case2 c cur acc h => simp [depTokens, specScan, splitGo, h, flushTok_empty]
  | case3 c cur acc h => simp [depTokens, specScan, splitGo, h]
  | case4 c d cs cur acc h ih => simp [depTokens, specScan, splitGo, h, ih]
  | case5 c d cs cur acc hws h ih => simp [depTokens, specScan, splitGo, hws, h, ih]
  | case6 c d cs cur acc hws hdd hbs hnl ih =>
    have hd : d = '\n' := by simpa using hnl
    have hc : c = '\\' := by simpa using hbs
    subst hd; subst hc
    rw [show depTokens ('\\' :: '\n' :: cs) cur acc = depTokens ('\n' :: cs) cur acc by
          simp [depTokens, hws, hdd],
        ih, specScan_ws '\n' cs (by simp)]
    simp [specScan, hws, hdd, splitGo]
  | case7 c d cs cur acc hws hdd hbs hnl ih =>
    have hc : c = '\\' := by simpa using hbs
    subst hc
    simp [depTokens, specScan, splitGo, hws, hdd, hnl, ih]
  | case8 c d cs cur acc hws hdd hbs ih =>
    simp [depTokens, specScan, splitGo, hws, hdd, hbs, ih]

/-- Sorting commutes with filtering (the source filters after sorting,
the specification's description filters before). -/
theorem sortStrings_filter (p : String → Bool) (l : List String) :
    (sortStrings l).filter p = sortStrings (l.filter p) := by
  have h1 : ((sortStrings l).filter p).Perm (sortStrings (l.filter p)) :=
    ((List.perm_insertionSort _ l).filter p).trans
      (List.perm_insertionSort _ (l.filter p)).symm
  have h2 : List.Sorted (· ≤ ·) ((sortStrings l).filter p) :=
    List.Pairwise.filter p (List.sorted_insertionSort _ l)
  have h3 : List.Sorted (· ≤ ·) (sortStrings (l.filter p)) :=
    List.sorted_insertionSort _ (l.filter p)
  exact List.eq_of_perm_of_sorted h1 h2 h3

/-! ## Claim C4 — the dep-file parser -/

/-- Claim C4 counterexample: on the dep-file text `x : toString` with no
explicit prerequisites, the source parser drops the token `toString` —
the `in` operator used for the prerequisite test also matches
`Object.prototype.toString` — while the parser the claim describes
(remove *only* the explicit prerequisites) returns it. -/
theorem loadDeps_toString_counterexample :
    loadDeps (some "x : toString") [] = []
    ∧ loadDepsClaim (some "x : toString") [] = ["toString"] := by
  constructor <;> rfl

/-- Claim C4 (amended): for every dep-file text the parser tokenizes
with space/tab/newline as separators, decodes `$$` to `$`, treats a
backslash before a newline as a line continuation, treats a backslash
before any other character as escaping that character, drops the two
leading header tokens `x` and `:` (checked only by `console.assert`),
and returns the remaining tokens sorted lexically with the explicit
prerequisites removed — and, additionally, with any token that spells
an `Object.prototype` property name (such as `toString`) removed, since
membership is tested with the JS `in` operator on a plain object.  A
missing dep-file yields the empty list. -/
theorem loadDeps_matches_amended (fileText : Option String) (depends : List String) :
    loadDeps fileText depends = loadDepsAmended fileText depends := by
  cases fileText with
  | none => rfl
  | some text =>
    simp only [loadDeps, loadDepsAmended, specTokens, jsInKeys,
      depTokens_eq_splitGo_specScan, sortStrings_filter]

/-! ## Claim C2 — the dynamic-prerequisite check -/

/-- Claim C2 (code bug): `assertNontargets` tests
`'target' in maek.tasks` — the literal string `'target'` instead of the
loop variable — so it never reports a dynamically discovered
prerequisite that *is* a registered target (first conjunct: the
generated header `objs/gen.hpp` is a registry key and a discovered
prerequisite, yet no `BuildError` is thrown), and conversely, if some
task were literally named `target`, it would report every discovered
prerequisite, registered or not (second conjunct). -/
theorem assertNontargets_never_fires :
    assertNontargets ["Player.cpp", "objs/gen.hpp", "dist/game"] ["objs/gen.hpp"]
      = .ok ()
    ∧ assertNontargets ["target"] ["Player.hpp"]
      = .error ("the following *generated* files are required but not mentioned as dependancies:\n  Player.hpp") := by
  constructor <;> rfl

/-! ## Claim C3 — driver behaviour on a failed build -/

/-- Claim C3 counterexample: with a task that has a cached key, a
`BuildError` from the build makes the driver print `FAILED` and exit 1
— and the trace contains no cache-file write, because `process.exit(1)`
runs before the cache-writing code is reached. -/
theorem updateDriver_failure_skips_cache_write :
    updateDriver [("objs/Player.o", some "K")] (.error "prerequisite failed.")
      = [.printFailed "prerequisite failed.", .exitProcess 1] := rfl

/-- Claim C3 (amended): when `update` fails with a `BuildError` the
driver prints `FAILED` with the message and exits with status 1, and
the persisted cache file is *not* rewritten — `process.exit(1)` runs
inside the `catch` before the cache-writing code.  The cache file is
rewritten, with the `cachedKey` of every task that has one, only when
the build succeeds. -/
theorem updateDriver_failed_and_success_behaviour
    (tasks : List (String × Option String)) (msg : String) :
    updateDriver tasks (.error msg) = [.printFailed msg, .exitProcess 1]
    ∧ (∀ c, DriverEv.writeCacheFile c ∈ updateDriver tasks (.error msg) → False)
    ∧ updateDriver tasks (.ok ()) = [.writeCacheFile (storeCache tasks)] := by
  refine ⟨rfl, ?_, rfl⟩
  intro c hc
  simp [updateDriver] at hc

/-! ## Hash-cache lemmas -/

theorem jsGetOwn_setOwn_self (own : List (String × String)) (k v : String) :
    jsGetOwn (setOwn own k v) k = some v := by
  induction own with
  | nil => simp [setOwn, jsGetOwn]
  | cons p rest ih =>
    obtain ⟨k1, v1⟩ := p
    by_cases h : k1 = k
    · simp [setOwn, h, jsGetOwn]
    · simp [setOwn, h, jsGetOwn, ih]

theorem jsGetOwn_setOwn_ne (own : List (String × String)) (k v g : String)
    (h : g ≠ k) :
    jsGetOwn (setOwn own k v) g = jsGetOwn own g := by
  induction own with
  | nil => simp [setOwn, jsGetOwn, Ne.symm h]
  | cons p rest ih =>
    obtain ⟨k1, v1⟩ := p
    by_cases h1 : k1 = k
    · subst h1
      simp [setOwn, jsGetOwn, Ne.symm h]
    · simp [setOwn, h1, jsGetOwn, ih]

theorem jsGetOwn_delOwn_self (own : List (String × String)) (k : String) :
    jsGetOwn (delOwn own k) k = none := by
  induction own with
  | nil => rfl
  | cons p rest ih =>
    obtain ⟨k1, v1⟩ := p
    by_cases h : k1 = k
    · simp [delOwn, h, ih]
    · simp [delOwn, h, jsGetOwn, ih]

/-- The main induction behind claim C5: running the hasher over a list
of non-`Object.prototype`-named files from a faithful cache state
returns exactly the computed records in input order, preserves
faithfulness, never loses a cache entry, and leaves every hashed file
memoized. -/
theorem hashFilesGo_spec (md5b64 : List Nat → String)
    (fs : String → Option (List Nat)) :
    ∀ (files : List String) (st : HashState),
      CacheFaithful md5b64 fs st →
      (∀ f ∈ files, f ∉ objectProtoProps) →
      (hashFilesGo md5b64 fs st files).1
          = files.map (fun f => JsVal.str (hashRecordOf md5b64 fs f))
      ∧ CacheFaithful md5b64 fs (hashFilesGo md5b64 fs st files).2
      ∧ (∀ g v, jsGetOwn st.hashCache g = some v →
          jsGetOwn (hashFilesGo md5b64 fs st files).2.hashCache g = some v)
      ∧ (∀ f ∈ files,
          jsGetOwn (hashFilesGo md5b64 fs st files).2.hashCache f
            = some (hashRecordOf md5b64 fs f)) := by
  intro files
  induction files with
  | nil =>
    intro st hfaith hnp
    exact ⟨rfl, hfaith, fun g v hv => hv, by simp⟩
  | cons f rest ih =>
    intro st hfaith hnp
    have hnpf : f ∉ objectProtoProps := hnp f (by simp)
    have hnprest : ∀ g ∈ rest, g ∉ objectProtoProps := fun g hg => hnp g (by simp [hg])
    cases hlk : jsGetOwn st.hashCache f with
    | some v =>
      have hv : v = hashRecordOf md5b64 fs f := hfaith f v hlk
      have hstep : hashFile md5b64 fs st f
          = (JsVal.str (hashRecordOf md5b64 fs f),
             { st with hashCacheHits := st.hashCacheHits + 1 }) := by
        simp [hashFile, jsGetProp, hlk, hv]
      have hfaith1 : CacheFaithful md5b64 fs
          { st with hashCacheHits := st.hashCacheHits + 1 } := by
        intro g w hw
        exact hfaith g w hw
      obtain ⟨h1, h2, h3, h4⟩ := ih _ hfaith1 hnprest
      refine ⟨?_, ?_, ?_, ?_⟩
      · simp [hashFilesGo, hstep, h1]
      · simpa [hashFilesGo, hstep] using h2
      · intro g w hw
        simpa [hashFilesGo, hstep] using h3 g w hw
      · intro g hg
        rcases List.mem_cons.mp hg with hg | hg
        · subst hg
          simpa [hashFilesGo, hstep] using h3 g _ (hlk.trans (by rw [hv]))
        · simpa [hashFilesGo, hstep] using h4 g hg
    | none =>
      have hproto : objectProtoProps.contains f = false := by
        simpa using hnpf
      have hne : f ≠ "__proto__" := by
        intro hh
        exact hnpf (by rw [hh]; decide)
      have hstep : hashFile md5b64 fs st f
          = (JsVal.str (hashRecordOf md5b64 fs f),
             { st with hashCache := setOwn st.hashCache f (hashRecordOf md5b64 fs f) }) := by
        simp [hashFile, jsGetProp, hlk, hproto, hnpf, jsSet, hne]
      have hfaith1 : CacheFaithful md5b64 fs
          { st with hashCache := setOwn st.hashCache f (hashRecordOf md5b64 fs f) } := by
        intro g w hw
        by_cases hg : g = f
        · subst hg
          rw [jsGetOwn_setOwn_self] at hw
          exact (Option.some.injEq _ _ ▸ hw).symm
        · rw [jsGetOwn_setOwn_ne _ _ _ _ hg] at hw
          exact hfaith g w hw
      obtain ⟨h1, h2, h3, h4⟩ := ih _ hfaith1 hnprest
      refine ⟨?_, ?_, ?_, ?_⟩
      · simp [hashFilesGo, hstep, h1]
      · simpa [hashFilesGo, hstep] using h2
      · intro g w hw
        have hgf : g ≠ f := by
          intro hh
          rw [hh, hlk] at hw
          exact Option.noConfusion hw
        have hw1 : jsGetOwn (setOwn st.hashCache f (hashRecordOf md5b64 fs f)) g = some w := by
          rw [jsGetOwn_setOwn_ne _ _ _ _ hgf]
          exact hw
        simpa [hashFilesGo, hstep] using h3 g w hw1
      · intro g hg
        rcases List.mem_cons.mp hg with hg | hg
        · subst hg
          have hmem : jsGetOwn (setOwn st.hashCache g (hashRecordOf md5b64 fs g)) g
              = some (hashRecordOf md5b64 fs g) := jsGetOwn_setOwn_self _ _ _
          simpa [hashFilesGo, hstep] using h3 g _ hmem
        · simpa [hashFilesGo, hstep] using h4 g hg

/-! ## Claim C5 — `hashFiles` -/

/-- Claim C5 counterexample: hashing the (readable) file named
`toString` from a fresh empty cache does not produce a
`path:digest` record — the `in`-operator cache lookup spuriously hits
the inherited `Object.prototype.toString`, and that object is returned
instead. -/
theorem hashFiles_protoProp_counterexample :
    (hashFiles (fun _ => "QQ") (fun _ => some [0]) ⟨[], 0⟩ ["toString"]).1
      = [JsVal.protoObj "toString"]
    ∧ [JsVal.protoObj "toString"] ≠ [JsVal.str "toString:QQ"] :=
  ⟨rfl, by decide⟩

/-- Claim C5 (amended): for every list of targets whose file targets do
not spell `Object.prototype` property names, and from any hash-cache
state faithful to the filesystem (the empty per-run initial cache in
particular), `hashFiles` skips abstract targets and returns, in the
input order of the remaining file targets, one record per file —
`path:digest` when the file is readable, `path:x` when the read fails —
without throwing (it is a total function), and each result is memoized
in the per-run hash cache.  For a file target that does spell an
`Object.prototype` property name the cache lookup spuriously hits the
inherited property and returns it instead of a record. -/
theorem hashFiles_records_in_order (md5b64 : List Nat → String)
    (fs : String → Option (List Nat)) (st : HashState) (targets : List String)
    (hfaith : CacheFaithful md5b64 fs st)
    (hnp : ∀ t ∈ targets, t ∉ objectProtoProps) :
    (hashFiles md5b64 fs st targets).1
      = (targets.filter (fun t => !(isAbstract t))).map
          (fun f => JsVal.str (hashRecordOf md5b64 fs f))
    ∧ CacheFaithful md5b64 fs (hashFiles md5b64 fs st targets).2
    ∧ ∀ f ∈ targets.filter (fun t => !(isAbstract t)),
        jsGetOwn (hashFiles md5b64 fs st targets).2.hashCache f
          = some (hashRecordOf md5b64 fs f) := by
  have hnp2 : ∀ f ∈ targets.filter (fun t => !(isAbstract t)), f ∉ objectProtoProps :=
    fun f hfm => hnp f (List.mem_of_mem_filter hfm)
  obtain ⟨h1, h2, h3, h4⟩ :=
    hashFilesGo_spec md5b64 fs (targets.filter (fun t => !(isAbstract t))) st hfaith hnp2
  exact ⟨h1, h2, h4⟩

/-- Witness for claim C5's theorem at a concrete input: one abstract
target (skipped), one readable file, one missing file. -/
theorem hashFiles_records_in_order_witness :
    (hashFiles (fun _ => "h0")
        (fun p => if p == "Player.cpp" then some [1, 2] else none)
        ⟨[], 0⟩ [":dist", "Player.cpp", "objs/Player.o"]).1
      = [JsVal.str "Player.cpp:h0", JsVal.str "objs/Player.o:x"]
    ∧ jsGetOwn (hashFiles (fun _ => "h0")
        (fun p => if p == "Player.cpp" then some [1, 2] else none)
        ⟨[], 0⟩ [":dist", "Player.cpp", "objs/Player.o"]).2.hashCache "Player.cpp"
      = some "Player.cpp:h0" := by
  have hfaith : CacheFaithful (fun _ => "h0")
      (fun p => if p == "Player.cpp" then some [1, 2] else none) ⟨[], 0⟩ := by
    intro f v hv
    simp [jsGetOwn] at hv
  have hnp : ∀ t ∈ [":dist", "Player.cpp", "objs/Player.o"],
      t ∉ objectProtoProps := by decide
  obtain ⟨h1, h2, h3⟩ := hashFiles_records_in_order (fun _ => "h0")
    (fun p => if p == "Player.cpp" then some [1, 2] else none)
    ⟨[], 0⟩ [":dist", "Player.cpp", "objs/Player.o"] hfaith hnp
  refine ⟨?_, ?_⟩
  · rw [h1]; rfl
  · rw [h3 "Player.cpp" (by decide)]; rfl

/-! ## Claim C10 — the absent-file sentinel is memoized -/

/-- Claim C10: once the per-run hash cache holds the absent-file
sentinel `path:x` for a path, every subsequent `hashFile` of that path
returns the sentinel — for an arbitrary filesystem, hence even if the
file has since been created — and leaves the cache entry in place,
until the entry is explicitly deleted (`delete hashCache[file]`), after
which `hashFile` computes a fresh record from the filesystem.  The
sentinel is memoized exactly like a real digest (the same hit branch
serves both). -/
theorem hashFile_sentinel_sticky (md5b64 : List Nat → String)
    (fs : String → Option (List Nat)) (st : HashState) (p : String)
    (hp : p ∉ objectProtoProps)
    (hsent : jsGetOwn st.hashCache p = some (p ++ ":x")) :
    (hashFile md5b64 fs st p).1 = .str (p ++ ":x")
    ∧ (hashFile md5b64 fs st p).2.hashCache = st.hashCache
    ∧ jsGetOwn (delOwn st.hashCache p) p = none
    ∧ (hashFile md5b64 fs ⟨delOwn st.hashCache p, st.hashCacheHits⟩ p).1
        = .str (hashRecordOf md5b64 fs p) := by
  have hproto : objectProtoProps.contains p = false := by simpa using hp
  refine ⟨?_, ?_, jsGetOwn_delOwn_self _ _, ?_⟩
  · simp [hashFile, jsGetProp, hsent]
  · simp [hashFile, jsGetProp, hsent]
  · simp [hashFile, jsGetProp, jsGetOwn_delOwn_self, hproto, hp]

/-- Witness for claim C10's theorem: a cached `objs/gen.hpp:x` sentinel
is returned although the filesystem now has readable bytes for the
path; after deletion the fresh digest is computed. -/
theorem hashFile_sentinel_sticky_witness :
    (hashFile (fun _ => "D") (fun _ => some [7])
        ⟨[("objs/gen.hpp", "objs/gen.hpp:x")], 0⟩ "objs/gen.hpp").1
      = .str "objs/gen.hpp:x"
    ∧ (hashFile (fun _ => "D") (fun _ => some [7])
        ⟨delOwn [("objs/gen.hpp", "objs/gen.hpp:x")] "objs/gen.hpp", 0⟩ "objs/gen.hpp").1
      = .str "objs/gen.hpp:D" := by
  obtain ⟨h1, h2, h3, h4⟩ := hashFile_sentinel_sticky (fun _ => "D") (fun _ => some [7])
    ⟨[("objs/gen.hpp", "objs/gen.hpp:x")], 0⟩ "objs/gen.hpp" (by decide) rfl
  exact ⟨h1, by rw [h4]; rfl⟩

/-! ## Claim C1 — cache hit in the task-update body -/

/-- Claim C1: for every task with both a `keyFn` and a `cachedKey`, the
update body computes the key first and, when its canonical
serialization equals that of the cached key, returns success without
running the task body (first conjunct: no commands run, the body did
not run, the filesystem is untouched).  Consequently a second update
with no filesystem change — its cached key loaded from the persisted
cache, hence serializing like the key stored at the end of the first
update — executes zero recipe commands for the task (second
conjunct). -/
theorem taskUpdate_cache_hit_skips {Fs Key : Type} (t : TaskModel Fs Key)
    (ser : Key → String) (kf : Fs → Key) (hkf : t.keyFn = some kf) :
    (∀ (ck : Key) (fs : Fs), ser (kf fs) = ser ck →
        taskUpdate t ser (some ck) fs = ⟨fs, 0, false, some ck⟩)
    ∧ ∀ (ck0 : Option Key) (fs : Fs), ∃ k1,
        (taskUpdate t ser ck0 fs).cachedKey = some k1
        ∧ ∀ ck1 : Key, ser ck1 = ser k1 →
            taskUpdate t ser (some ck1) (taskUpdate t ser ck0 fs).fsOut
              = ⟨(taskUpdate t ser ck0 fs).fsOut, 0, false, some ck1⟩ := by
  constructor
  · intro ck fs hser
    simp [taskUpdate, hkf, hser]
  · intro ck0 fs
    cases ck0 with
    | none =>
      refine ⟨kf (t.runBody fs).1, by simp [taskUpdate, hkf], ?_⟩
      intro ck1 hser
      simp [taskUpdate, hkf, hser]
    | some ck =>
      by_cases hhit : ser (kf fs) = ser ck
      · refine ⟨ck, by simp [taskUpdate, hkf, hhit], ?_⟩
        intro ck1 hser
        simp [taskUpdate, hkf, hhit, hser.trans hhit.symm]
      · refine ⟨kf (t.runBody fs).1, by simp [taskUpdate, hkf, hhit], ?_⟩
        intro ck1 hser
        simp [taskUpdate, hkf, hhit, hser]

/-- Witness for claim C1's theorem: a concrete task over `Nat` states
with the identity key function; a matching cached key is a hit (no
commands), and after a miss-and-run the immediate re-update is a
hit. -/
theorem taskUpdate_cache_hit_skips_witness :
    taskUpdate (⟨some (fun n => n), fun n => (n + 1, 2)⟩ : TaskModel Nat Nat)
        (fun k => toString k) (some 5) 5
      = ⟨5, 0, false, some 5⟩
    ∧ taskUpdate (⟨some (fun n => n), fun n => (n + 1, 2)⟩ : TaskModel Nat Nat)
        (fun k => toString k) (some 6)
        (taskUpdate (⟨some (fun n => n), fun n => (n + 1, 2)⟩ : TaskModel Nat Nat)
          (fun k => toString k) none 5).fsOut
      = ⟨6, 0, false, some 6⟩ := by
  constructor
  · exact (taskUpdate_cache_hit_skips
      (⟨some (fun n => n), fun n => (n + 1, 2)⟩ : TaskModel Nat Nat)
      (fun k => toString k) (fun n => n) rfl).1 5 5 rfl
  · obtain ⟨k1, hk1, hrest⟩ := (taskUpdate_cache_hit_skips
      (⟨some (fun n => n), fun n => (n + 1, 2)⟩ : TaskModel Nat Nat)
      (fun k => toString k) (fun n => n) rfl).2 none 5
    have hk1v : k1 = 6 := by
      have : some k1 = some 6 := by rw [← hk1]; rfl
      exact Option.some.inj this
    subst hk1v
    exact hrest 6 rfl

/-! ## Claim C6 — abstract `RULE` tasks are never cached -/

/-- Claim C6: a task registered by `RULE` whose targets include an
abstract target gets no `keyFn`, and therefore its update body runs the
full recipe on every driver invocation that demands one of its targets,
whatever cached key may be present — the cache-hit branch requires a
`keyFn`. -/
theorem ruleTask_abstract_always_runs {Fs Key : Type}
    (execCmd : Fs → List String → Fs) (ruleKeyOf : Fs → Key)
    (targets : List String) (recipe : List (List String))
    (habs : targets.any (fun t => isAbstract t) = true) :
    (mkRuleTask execCmd ruleKeyOf targets recipe).keyFn = none
    ∧ ∀ (ser : Key → String) (ck : Option Key) (fs : Fs),
        taskUpdate (mkRuleTask execCmd ruleKeyOf targets recipe) ser ck fs
          = ⟨recipe.foldl execCmd fs, recipe.length, true, ck⟩ := by
  constructor
  · simp [mkRuleTask, habs]
  · intro ser ck fs
    simp [taskUpdate, mkRuleTask, habs]

/-- Witness for claim C6's theorem: the `RULE [':test'] ...` task of the
sample Maekfile, over a `Nat` filesystem where each command increments
the state: both with and without a (spurious) cached key the body runs
both recipe commands. -/
theorem ruleTask_abstract_always_runs_witness :
    (mkRuleTask (fun (n : Nat) (_ : List String) => n + 1) (fun (n : Nat) => n)
        [":test"] [["test/game-test", "--all-tests"], ["echo", "ok"]]).keyFn = none
    ∧ taskUpdate (mkRuleTask (fun (n : Nat) (_ : List String) => n + 1) (fun (n : Nat) => n)
        [":test"] [["test/game-test", "--all-tests"], ["echo", "ok"]])
        (fun k => toString k) (some 9) 0
      = ⟨2, 2, true, some 9⟩ := by
  obtain ⟨h1, h2⟩ := ruleTask_abstract_always_runs
    (fun (n : Nat) (_ : List String) => n + 1) (fun (n : Nat) => n)
    [":test"] [["test/game-test", "--all-tests"], ["echo", "ok"]] (by decide)
  exact ⟨h1, h2 (fun k => toString k) (some 9) 0⟩

/-! ## Claim C8 — pending-handle de-duplication -/

theorem resolveTarget_pending_mono (registry : String → Option Nat)
    (st : ResolveState) (target : String) (tid h : Nat)
    (hp : st.pendingOf tid = some h) :
    (resolveTarget registry st target).2.pendingOf tid = some h := by
  cases hreg : registry target with
  | none => simpa [resolveTarget, hreg] using hp
  | some tid2 =>
    cases hp2 : st.pendingOf tid2 with
    | some h2 => simpa [resolveTarget, hreg, hp2] using hp
    | none =>
      by_cases he : tid = tid2
      · subst he
        rw [hp] at hp2
        exact Option.noConfusion hp2
      · simpa [resolveTarget, hreg, hp2, he] using hp

theorem resolveSeq_pending_mono (registry : String → Option Nat)
    (reqs : List String) : ∀ (st : ResolveState) (tid h : Nat),
    st.pendingOf tid = some h →
    (resolveSeq registry reqs st).2.pendingOf tid = some h := by
  induction reqs with
  | nil => intro st tid h hp; exact hp
  | cons t ts ih =>
    intro st tid h hp
    simpa [resolveSeq] using
      ih (resolveTarget registry st t).2 tid h
        (resolveTarget_pending_mono registry st t tid h hp)

theorem resolveTarget_inv (registry : String → Option Nat)
    (st : ResolveState) (target : String)
    (hinv : ∀ tid, st.runCount tid ≤ 1
      ∧ (st.pendingOf tid = none → st.runCount tid = 0)) :
    ∀ tid, (resolveTarget registry st target).2.runCount tid ≤ 1
      ∧ ((resolveTarget registry st target).2.pendingOf tid = none →
          (resolveTarget registry st target).2.runCount tid = 0) := by
  intro tid
  cases hreg : registry target with
  | none => simpa [resolveTarget, hreg] using hinv tid
  | some tid2 =>
    cases hp2 : st.pendingOf tid2 with
    | some h2 => simpa [resolveTarget, hreg, hp2] using hinv tid
    | none =>
      by_cases he : tid = tid2
      · subst he
        refine ⟨?_, ?_⟩
        · simp [resolveTarget, hreg, hp2, (hinv tid).2 hp2]
        · intro hnone
          simp [resolveTarget, hreg, hp2] at hnone
      · simpa [resolveTarget, hreg, hp2, he] using hinv tid

theorem resolveSeq_inv (registry : String → Option Nat)
    (reqs : List String) : ∀ (st : ResolveState),
    (∀ tid, st.runCount tid ≤ 1
      ∧ (st.pendingOf tid = none → st.runCount tid = 0)) →
    ∀ tid, (resolveSeq registry reqs st).2.runCount tid ≤ 1
      ∧ ((resolveSeq registry reqs st).2.pendingOf tid = none →
          (resolveSeq registry reqs st).2.runCount tid = 0) := by
  induction reqs with
  | nil => intro st h; exact h
  | cons t ts ih =>
    intro st h tid
    simpa [resolveSeq] using
      ih (resolveTarget registry st t).2 (resolveTarget_inv registry st t h) tid

theorem resolveSeq_answers (registry : String → Option Nat)
    (reqs : List String) : ∀ (st : ResolveState) (i : Nat) (ti : String) (tid : Nat),
    reqs[i]? = some ti → registry ti = some tid →
    ∃ h, (resolveSeq registry reqs st).1[i]? = some (some h)
      ∧ (resolveSeq registry reqs st).2.pendingOf tid = some h := by
  induction reqs with
  | nil => intro st i ti tid hi; simp at hi
  | cons t ts ih =>
    intro st i ti tid hi hreg
    cases i with
    | zero =>
      simp only [List.getElem?_cons_zero, Option.some.injEq] at hi
      subst hi
      cases hp : st.pendingOf tid with
      | some h =>
        refine ⟨h, ?_, ?_⟩
        · simp [resolveSeq, resolveTarget, hreg, hp]
        · simpa [resolveSeq, resolveTarget, hreg, hp] using
            resolveSeq_pending_mono registry ts st tid h hp
      | none =>
        refine ⟨st.nextHandle, ?_, ?_⟩
        · simp [resolveSeq, resolveTarget, hreg, hp]
        · have hset : (resolveTarget registry st t).2.pendingOf tid
              = some st.nextHandle := by
            simp [resolveTarget, hreg, hp]
          simpa [resolveSeq] using
            resolveSeq_pending_mono registry ts
              (resolveTarget registry st t).2 tid st.nextHandle hset
    | succ n =>
      simp only [List.getElem?_cons_succ] at hi
      obtain ⟨h, h1, h2⟩ := ih (resolveTarget registry st t).2 n ti tid hi hreg
      exact ⟨h, by simpa [resolveSeq] using h1, by simpa [resolveSeq] using h2⟩

/-- Claim C8: within one driver invocation, every request for a target
with a registered task launches that task's update body at most once
(first conjunct: the per-task launch count after any request sequence
is at most one), and any two requests for targets of the same task —
the same target twice, or two sibling targets — receive the same
pending handle, hence await the same in-flight update and observe the
same outcome (second conjunct). -/
theorem resolveSeq_dedups_and_runs_once (registry : String → Option Nat)
    (reqs : List String) :
    (∀ tid, (resolveSeq registry reqs initResolveState).2.runCount tid ≤ 1)
    ∧ ∀ (i j : Nat) (ti tj : String) (tid : Nat),
        reqs[i]? = some ti → reqs[j]? = some tj →
        registry ti = some tid → registry tj = some tid →
        (resolveSeq registry reqs initResolveState).1[i]?
          = (resolveSeq registry reqs initResolveState).1[j]? := by
  constructor
  · intro tid
    exact (resolveSeq_inv registry reqs initResolveState
      (fun tid => ⟨by simp [initResolveState], fun _ => rfl⟩) tid).1
  · intro i j ti tj tid hi hj hri hrj
    obtain ⟨h1, hi1, hp1⟩ :=
      resolveSeq_answers registry reqs initResolveState i ti tid hi hri
    obtain ⟨h2, hi2, hp2⟩ :=
      resolveSeq_answers registry reqs initResolveState j tj tid hj hrj
    rw [hp1] at hp2
    rw [hi1, hi2, Option.some.inj hp2]

/-- Witness for claim C8's theorem: two sibling targets of one task
(task id 0) requested in sequence share the handle, and the task is
launched once. -/
theorem resolveSeq_dedups_and_runs_once_witness :
    ((resolveSeq (fun t => if t == "objs/a.o" || t == "objs/b.o" then some 0 else none)
        ["objs/a.o", "objs/b.o"] initResolveState).2.runCount 0 ≤ 1)
    ∧ (resolveSeq (fun t => if t == "objs/a.o" || t == "objs/b.o" then some 0 else none)
        ["objs/a.o", "objs/b.o"] initResolveState).1[0]?
      = (resolveSeq (fun t => if t == "objs/a.o" || t == "objs/b.o" then some 0 else none)
        ["objs/a.o", "objs/b.o"] initResolveState).1[1]? := by
  obtain ⟨h1, h2⟩ := resolveSeq_dedups_and_runs_once
    (fun t => if t == "objs/a.o" || t == "objs/b.o" then some 0 else none)
    ["objs/a.o", "objs/b.o"]
  exact ⟨h1 0, h2 0 1 "objs/a.o" "objs/b.o" 0 rfl rfl rfl rfl⟩

/-! ## Claim C9 — hash-cache invalidation order in the task bodies -/

/-- Claim C9 counterexample: the claim says every produced file's cache
entry is deleted immediately *before* the task's commands run *and*
again when the producing commands finish.  Neither half holds across
the task kinds: a `RULE` task deletes its target's entry only after its
recipe commands (first conjunct — no delete precedes the command), and
a `CPP` task deletes the object's entry only before the compile command
(second conjunct — no delete follows it). -/
theorem hashInvalidation_counterexample :
    (¬ Precedes (ruleTaskTrace ["out.txt"] [] [["touch", "out.txt"]])
        (.delHash "out.txt") (.runCmd ["touch", "out.txt"]))
    ∧ ¬ Precedes (cppTaskTrace ["Player.cpp"] "objs/Player.o" "objs/Player.d"
          ["g++", "-c"] ["g++", "-M"])
        (.runCmd ["g++", "-c"]) (.delHash "objs/Player.o") := by
  constructor
  · rintro ⟨i, j, hij, ha, hb⟩
    have hi2 : i = 2 := by
      rcases i with _ | _ | _ | n
      · exact absurd ha (by decide)
      · exact absurd ha (by decide)
      · rfl
      · simp [ruleTaskTrace] at ha
    have hj1 : j = 1 := by
      rcases j with _ | _ | _ | n
      · exact absurd hb (by decide)
      · rfl
      · exact absurd hb (by decide)
      · simp [ruleTaskTrace] at hb
    omega
  · rintro ⟨i, j, hij, ha, hb⟩
    have hi3 : i = 3 := by
      rcases i with _ | _ | _ | _ | _ | _ | _ | _ | n
      · exact absurd ha (by decide)
      · exact absurd ha (by decide)
      · exact absurd ha (by decide)
      · rfl
      · exact absurd ha (by decide)
      · exact absurd ha (by decide)
      · exact absurd ha (by decide)
      · exact absurd ha (by decide)
      · simp [cppTaskTrace] at ha
    have hj1 : j = 1 := by
      rcases j with _ | _ | _ | _ | _ | _ | _ | _ | n
      · exact absurd hb (by decide)
      · rfl
      · exact absurd hb (by decide)
      · exact absurd hb (by decide)
      · exact absurd hb (by decide)
      · exact absurd hb (by decide)
      · exact absurd hb (by decide)
      · exact absurd hb (by decide)
      · simp [cppTaskTrace] at hb
    omega

/-- Claim C9 (amended): the invalidation discipline actually in the
code is one-sided per task kind — a `RULE` task deletes the hash-cache
entry of each of its targets after all recipe commands finish (every
recipe command precedes every target deletion); a `CPP` task deletes
the object's entry immediately before the compile command and the
dep-file's entry immediately before the dependency-probe command; a
`LINK` task deletes the executable's entry immediately before the link
command.  (Deletes before re-hashing still suffice for the engine,
because the post-run `keyFn` re-hashes outputs only after the producing
task body has completed.) -/
theorem hashInvalidation_amended :
    (∀ (targets prerequisites : List String) (recipe : List (List String))
        (t : String) (c : List String), t ∈ targets → c ∈ recipe →
        Precedes (ruleTaskTrace targets prerequisites recipe)
          (.runCmd c) (.delHash t))
    ∧ (∀ (depends : List String) (objFile depsFile : String)
        (objCommand depsCommand : List String),
        Precedes (cppTaskTrace depends objFile depsFile objCommand depsCommand)
          (.delHash objFile) (.runCmd objCommand)
        ∧ Precedes (cppTaskTrace depends objFile depsFile objCommand depsCommand)
          (.delHash depsFile) (.runCmd depsCommand))
    ∧ ∀ (depends : List String) (exeFile : String) (linkCommand : List String),
        Precedes (linkTaskTrace depends exeFile linkCommand)
          (.delHash exeFile) (.runCmd linkCommand) := by
  refine ⟨?_, ?_, ?_⟩
  · intro targets prerequisites recipe t c ht hc
    obtain ⟨ic, hic, hceq⟩ := List.getElem_of_mem hc
    obtain ⟨it, hit, hteq⟩ := List.getElem_of_mem ht
    refine ⟨ic + 1, recipe.length + it + 1, by omega, ?_, ?_⟩
    · have h1 : ic < (recipe.map BuildEv.runCmd).length := by
        simpa using hic
      simp only [ruleTaskTrace, List.getElem?_cons_succ]
      rw [List.getElem?_append_left h1, List.getElem?_map,
        List.getElem?_eq_getElem hic, hceq]
      rfl
    · have h1 : (recipe.map BuildEv.runCmd).length ≤ recipe.length + it := by
        simp
      simp only [ruleTaskTrace, List.getElem?_cons_succ]
      rw [List.getElem?_append_right h1, List.getElem?_map]
      have h2 : recipe.length + it - (recipe.map BuildEv.runCmd).length = it := by
        simp
      rw [h2, List.getElem?_eq_getElem hit, hteq]
      rfl
  · intro depends objFile depsFile objCommand depsCommand
    exact ⟨⟨1, 3, by omega, rfl, rfl⟩, ⟨4, 6, by omega, rfl, rfl⟩⟩
  · intro depends exeFile linkCommand
    exact ⟨1, 3, by omega, rfl, rfl⟩

/-- Witness for claim C9's amended theorem at concrete task
instances. -/
theorem hashInvalidation_amended_witness :
    Precedes (ruleTaskTrace ["out.txt"] [] [["touch", "out.txt"]])
      (.runCmd ["touch", "out.txt"]) (.delHash "out.txt")
    ∧ Precedes (cppTaskTrace ["Player.cpp"] "objs/Player.o" "objs/Player.d"
        ["g++", "-c"] ["g++", "-M"])
      (.delHash "objs/Player.o") (.runCmd ["g++", "-c"])
    ∧ Precedes (linkTaskTrace ["objs/Player.o"] "dist/game" ["g++", "-o"])
      (.delHash "dist/game") (.runCmd ["g++", "-o"]) := by
  obtain ⟨h1, h2, h3⟩ := hashInvalidation_amended
  exact ⟨h1 ["out.txt"] [] [["touch", "out.txt"]] "out.txt" ["touch", "out.txt"]
      (by decide) (by decide),
    (h2 ["Player.cpp"] "objs/Player.o" "objs/Player.d" ["g++", "-c"] ["g++", "-M"]).1,
    h3 ["objs/Player.o"] "dist/game" ["g++", "-o"]⟩

/-! ## Claim C7 — the job limiter -/

theorem jobStep_preserves (limit : Nat) (s s2 : JobState)
    (hstep : JobStep limit s s2)
    (hlen : s.running.length ≤ limit)
    (hfifo : s.startedOrder ++ s.pendingQ = s.submitted) :
    s2.running.length ≤ limit ∧ s2.startedOrder ++ s2.pendingQ = s2.submitted := by
  cases hstep with
  | submit id =>
    refine ⟨hlen, ?_⟩
    show s.startedOrder ++ (s.pendingQ ++ [id]) = s.submitted ++ [id]
    rw [← List.append_assoc, hfifo]
  | scheduleStart id q hsch hq hlt =>
    refine ⟨?_, ?_⟩
    · show (s.running ++ [id]).length ≤ limit
      simp only [List.length_append, List.length_singleton]
      omega
    · show (s.startedOrder ++ [id]) ++ q = s.submitted
      rw [List.append_assoc, List.singleton_append, ← hq]
      exact hfifo
  | scheduleSkip hsch hcond => exact ⟨hlen, hfifo⟩
  | finish pre post id hrun =>
    refine ⟨?_, hfifo⟩
    show (pre ++ post).length ≤ limit
    rw [hrun] at hlen
    simp only [List.length_append, List.length_cons] at hlen ⊢
    omega

theorem jobStep_start_consumes_sched (limit : Nat) (s s2 : JobState)
    (hstep : JobStep limit s s2)
    (hne : s2.startedOrder ≠ s.startedOrder) :
    s2.scheds + 1 = s.scheds ∧ s2.submitted = s.submitted := by
  cases hstep with
  | submit id => exact absurd rfl hne
  | scheduleStart id q hsch hq hlt =>
    refine ⟨?_, rfl⟩
    show s.scheds - 1 + 1 = s.scheds
    omega
  | scheduleSkip hsch hcond => exact absurd rfl hne
  | finish pre post id hrun => exact absurd rfl hne

/-- Claim C7: in every state a driver invocation can reach, the number
of concurrently running jobs — external commands executing through the
limiter — is at most `JOBS = CPU_COUNT + 1`, and the jobs started so
far, in start order, are exactly the submitted jobs minus the FIFO
queue of jobs not yet started (so queued jobs start in FIFO submission
order).  Moreover no single transition that starts a job is a
submission: a start consumes a queued scheduler-turn callback
(`scheds` decreases) and submits nothing, so a submitted job never runs
before at least the next scheduler turn. -/
theorem job_limiter_bound_and_fifo (cpuCount : Nat) :
    (∀ s, JobReachable (JOBS cpuCount) s →
        s.running.length ≤ JOBS cpuCount
        ∧ s.startedOrder ++ s.pendingQ = s.submitted)
    ∧ ∀ s s2, JobStep (JOBS cpuCount) s s2 →
        s2.startedOrder ≠ s.startedOrder →
        s2.scheds + 1 = s.scheds ∧ s2.submitted = s.submitted := by
  constructor
  · intro s hs
    induction hs with
    | init => exact ⟨by simp [initJobState], rfl⟩
    | step hr hstep ih => exact jobStep_preserves _ _ _ hstep ih.1 ih.2
  · intro s s2 hstep hne
    exact jobStep_start_consumes_sched _ s s2 hstep hne

/-- Witness for claim C7's theorem: the bound and FIFO law at the
initial state, and the scheduler-turn law at a concrete starting
transition (one job submitted, then started by the queued `schedule`
callback). -/
theorem job_limiter_bound_and_fifo_witness :
    (initJobState.running.length ≤ JOBS 3
      ∧ initJobState.startedOrder ++ initJobState.pendingQ = initJobState.submitted)
    ∧ ((⟨[7], [], [7], [7], 0⟩ : JobState).scheds + 1
          = (⟨[7], [7], [], [], 1⟩ : JobState).scheds
      ∧ (⟨[7], [], [7], [7], 0⟩ : JobState).submitted
          = (⟨[7], [7], [], [], 1⟩ : JobState).submitted) := by
  constructor
  · exact (job_limiter_bound_and_fifo 3).1 initJobState JobReachable.init
  · refine (job_limiter_bound_and_fifo 3).2 ⟨[7], [7], [], [], 1⟩ ⟨[7], [], [7], [7], 0⟩
      ?_ (by decide)
    exact JobStep.scheduleStart ⟨[7], [7], [], [], 1⟩ 7 [] (by decide) rfl (by decide)

/-- Witness for claim C3's amended theorem at a concrete input: on
success the cache file is written with the one cached key; the failure
instance is the counterexample theorem's input. -/
theorem updateDriver_failed_and_success_behaviour_witness :
    updateDriver [("objs/Player.o", some "K"), (":test", none)] (.ok ())
      = [.writeCacheFile [("objs/Player.o", "K")]]
    ∧ updateDriver [("objs/Player.o", some "K"), (":test", none)]
        (.error "prerequisite failed.")
      = [.printFailed "prerequisite failed.", .exitProcess 1] := by
  obtain ⟨h1, h2, h3⟩ := updateDriver_failed_and_success_behaviour
    [("objs/Player.o", some "K"), (":test", none)] "prerequisite failed."
  exact ⟨by rw [h3]; rfl, h1⟩
